import Mathlib

/-!
# AutoGrade command forwarder (`src/main/resources/autograde.cpp`)

A shallow embedding of the two functions of the forwarder, `join` and `main`,
and the properties of the command text they build and of the exit status.

Conventions of the embedding:

* a `char *` is an `Option String`: `none` is the null pointer, `some s` a
  pointer to the NUL-terminated text `s`;
* a `char **` is the list of the entries it points at, up to the end of the
  array; `argv + 1` is `argv.drop 1`; reading past the end of the array, or
  appending a null pointer to a `std::string`, is undefined behaviour and the
  embedding returns `none`;
* `int` values are `Int`; `argc` is nonnegative at program startup, so neither
  `argc - 1` nor the loop counter leaves the range of `int`;
* `system` is the platform's command processor: its result code is a parameter
  (`facility`), and its effect is recorded in a log of the commands it was given;
* `main` is embedded twice: on the level of text (`main`), where the pointer
  `command` stands for the text of the string it was taken from, and with the
  lifetimes of the `std::string` objects of lines 52-53 (`mainBeforeCall`,
  `mainWithLifetimes`), where reading through a pointer into a destroyed object
  is undefined behaviour and the embedding returns `none`.
-/

namespace Autograde

/-! ## Data model -/

/-- The string literal on line 52: the fixed launcher invocation. -/
def launcher : String := "java -jar AutoGrade.jar"

/-- The observable state: the commands handed to the execution facility, oldest first. -/
structure World where
  calls : List String
deriving DecidableEq

/-! ## `join` (lines 36-44) -/

/-- The `for` loop of `join` (lines 39-41), entered with loop counter `i` and
accumulator `result`: while `i < argc`, append `" "` and then `argv[i]`. -/
def joinLoop (argc : Int) (argv : List (Option String)) (i : Nat) (result : String) :
    Option String :=
  if (i : Int) < argc then
    match argv.get? i with
    | some (some s) => joinLoop argc argv (i + 1) ((result ++ " ") ++ s)
    | _ => none
  else some result
termination_by (argc - i).toNat
decreasing_by omega

/-- The function `join(int argc, char ** argv)`: `result` starts empty, the loop
starts at `i = 0`, and `result` is returned. -/
def join (argc : Int) (argv : List (Option String)) : Option String :=
  joinLoop argc argv 0 ""

/-! ## `main` (lines 51-55) -/

/-- The text of the full expression on lines 52-53:
`string("java -jar AutoGrade.jar").append(join(argc - 1, argv + 1))`. -/
def commandText (argc : Int) (argv : List (Option String)) : Option String :=
  match join (argc - 1) (argv.drop 1) with
  | some joined => some (launcher ++ joined)
  | none => none

/-- The call `system(command)`: the facility reports a result code for the
command, and the command is appended to the log of calls. -/
def system (facility : String → Int) (command : String) (w : World) : Int × World :=
  (facility command, { calls := w.calls ++ [command] })

/-- The function `main(int argc, char ** argv)` on the level of text: `command`
stands for the text of the string its pointer was taken from, and the value
returned is the result of `system(command)`. -/
def main (facility : String → Int) (argc : Int) (argv : List (Option String)) (w : World) :
    Option (Int × World) :=
  match commandText argc argv with
  | some command => some (system facility command w)
  | none => none

/-- The argument vector the platform builds for a process started under the
name `name` with the arguments `args`: the name, the arguments, a null pointer. -/
def argvOf (name : String) (args : List String) : List (Option String) :=
  some name :: (args.map some ++ [none])

/-- The argument count that goes with `argvOf name args`. -/
def argcOf (args : List String) : Int := (args.length : Int) + 1

/-! ## The loop of `join`, entry by entry -/

/-- What the loop of `join` computes over the entries `xs` it visits, starting
from the accumulator `result`. -/
def joinEntries : List (Option String) → String → Option String
  | [], result => some result
  | some s :: rest, result => joinEntries rest ((result ++ " ") ++ s)
  | none :: _, _ => none

/-! ## The command as the specification writes it -/

/-- The command text in the words of the specification: the fixed launcher text,
then for each argument in order one space and the argument. -/
def specCommand (args : List String) : String :=
  args.foldl (fun acc a => acc ++ " " ++ a) launcher

/-- The arguments read back from a command text: the launcher text is removed,
the remainder is cut at every space, and the first piece is dropped. -/
def recoverArgs (command : String) : List String :=
  (((command.data.drop launcher.length).splitOn ' ').drop 1).map String.mk

/-! ## The platform's exit status -/

/-- A `std::string` object: its text, and whether its lifetime is still running. -/
structure StrObj where
  text : String
  alive : Bool
deriving DecidableEq

/-- Constructing a `std::string` with the given text: the new object is added
to the objects created so far and is named by its position among them. -/
def construct (objs : List StrObj) (text : String) : List StrObj × Nat :=
  (objs ++ [{ text := text, alive := true }], objs.length)

/-- The text behind a pointer into the buffer of object `p`, for whoever reads
that buffer: no text once the object has been destroyed. -/
def readCStr (objs : List StrObj) (p : Nat) : Option String :=
  match objs.get? p with
  | some o => if o.alive then some o.text else none
  | none => none

/-- The call `dst.append(src)` on two string objects, both within their lifetime. -/
def appendObj (objs : List StrObj) (dst src : Nat) : Option (List StrObj) :=
  match objs.get? dst, readCStr objs src with
  | some o, some text =>
    if o.alive then some (objs.set dst { o with text := o.text ++ text }) else none
  | _, _ => none

/-- The destructor of string object `obj`: its lifetime ends and its buffer is released. -/
def destroy (objs : List StrObj) (obj : Nat) : List StrObj :=
  match objs.get? obj with
  | some o => objs.set obj { o with alive := false }
  | none => objs

/-- The state of `main` between line 53 and line 54: the string objects and the
pointer `command` (the object whose buffer it points into). -/
structure AtCall where
  objs : List StrObj
  command : Nat
deriving DecidableEq

/-- Lines 52-53 of `main` with the objects they create: the temporary
`string("java -jar AutoGrade.jar")`, the temporary that holds the value
returned by `join`, the `append`, the pointer taken by `c_str()`, and at the
end of the full expression the destruction of both temporaries, last created
first. -/
def mainBeforeCall (argc : Int) (argv : List (Option String)) : Option AtCall :=
  let (objs1, t1) := construct [] launcher
  match join (argc - 1) (argv.drop 1) with
  | none => none
  | some joined =>
    let (objs2, t2) := construct objs1 joined
    match appendObj objs2 t1 t2 with
    | none => none
    | some objs3 =>
      let command := t1
      some { objs := destroy (destroy objs3 t2) t1, command := command }

/-- The function `main` with object lifetimes: line 54 reads the text behind
`command` and hands it to the facility; there is no defined result when the
pointer refers to a destroyed object. -/
def mainWithLifetimes (facility : String → Int) (argc : Int) (argv : List (Option String)) :
    Option Int :=
  match mainBeforeCall argc argv with
  | none => none
  | some s => (readCStr s.objs s.command).map facility

/-! ## Lemmas on the loop of `join` -/

theorem joinLoop_done (argc : Int) (argv : List (Option String)) (i : Nat) (result : String)
    (h : argc ≤ (i : Int)) : joinLoop argc argv i result = some result := by
  rw [joinLoop, if_neg (by omega)]

theorem joinLoop_eq_joinEntries (xs : List (Option String)) :
    ∀ (pre rest : List (Option String)) (result : String),
      joinLoop ((pre.length + xs.length : Nat) : Int) (pre ++ xs ++ rest) pre.length result
        = joinEntries xs result := by
  induction xs with
  | nil =>
    intro pre rest result
    simpa [joinEntries] using joinLoop_done _ _ _ result (by simp)
  | cons x xs ih =>
    intro pre rest result
    have hlt : ((pre.length : Nat) : Int) < ((pre.length + (x :: xs).length : Nat) : Int) := by
      simp
    have hget : (pre ++ x :: xs ++ rest).get? pre.length = some x := by
      rw [List.append_assoc, List.get?_eq_getElem?, List.getElem?_append_right (le_refl _)]
      simp
    rw [joinLoop, if_pos hlt, hget]
    cases x with
    | none => simp [joinEntries]
    | some s =>
      have h := ih (pre ++ [some s]) rest ((result ++ " ") ++ s)
      simp only [List.length_append, List.length_singleton, List.append_assoc,
        List.singleton_append, List.length_cons, List.length_nil, Nat.zero_add] at h ⊢
      simp only [joinEntries]
      rw [← h, Nat.add_assoc, Nat.add_comm 1 xs.length]

theorem join_eq_joinEntries (xs rest : List (Option String)) :
    join (xs.length : Int) (xs ++ rest) = joinEntries xs "" := by
  have h := joinLoop_eq_joinEntries xs [] rest ""
  simpa [join] using h

theorem join_of_nonpos (n : Int) (argv : List (Option String)) (h : n ≤ 0) :
    join n argv = some "" :=
  joinLoop_done n argv 0 "" (by simpa using h)

theorem joinLoop_short (xs : List (Option String)) :
    ∀ (pre : List (Option String)) (argc : Int) (result : String),
      ((pre.length + xs.length : Nat) : Int) < argc →
        joinLoop argc (pre ++ xs) pre.length result = none := by
  induction xs with
  | nil =>
    intro pre argc result h
    rw [joinLoop, if_pos (by simpa using h)]
    simp
  | cons x xs ih =>
    intro pre argc result h
    have hlt : ((pre.length : Nat) : Int) < argc := by
      simp only [List.length_cons] at h
      omega
    have hget : (pre ++ x :: xs).get? pre.length = some x := by
      rw [List.get?_eq_getElem?, List.getElem?_append_right (le_refl _)]
      simp
    rw [joinLoop, if_pos hlt, hget]
    cases x with
    | none => rfl
    | some s =>
      have h2 := ih (pre ++ [some s]) argc ((result ++ " ") ++ s) (by
        simp only [List.length_append, List.length_cons, List.length_nil] at h ⊢
        push_cast at h ⊢
        omega)
      simpa using h2

theorem joinEntries_map_some (args : List String) :
    ∀ result : String,
      joinEntries (args.map some) result
        = some (args.foldl (fun acc a => (acc ++ " ") ++ a) result) := by
  induction args with
  | nil => intro result; rfl
  | cons a args ih => intro result; simpa [joinEntries] using ih ((result ++ " ") ++ a)

theorem joinEntries_acc (xs : List (Option String)) :
    ∀ result : String,
      joinEntries xs result = (joinEntries xs "").map (fun joined => result ++ joined) := by
  induction xs with
  | nil => intro result; simp [joinEntries]
  | cons x xs ih =>
    intro result
    cases x with
    | none => simp [joinEntries]
    | some s =>
      simp only [joinEntries]
      rw [ih ((result ++ " ") ++ s), ih (("" ++ " ") ++ s)]
      cases joinEntries xs "" with
      | none => rfl
      | some j => simp [String.append_assoc]

theorem joinEntries_append (xs ys : List (Option String)) :
    ∀ result : String,
      joinEntries (xs ++ ys) result = (joinEntries xs result).bind (joinEntries ys) := by
  induction xs with
  | nil => intro result; simp [joinEntries]
  | cons x xs ih =>
    intro result
    cases x with
    | none => simp [joinEntries]
    | some s => simpa [joinEntries] using ih ((result ++ " ") ++ s)

theorem foldl_acc (args : List String) :
    ∀ result : String,
      args.foldl (fun acc a => (acc ++ " ") ++ a) result
        = result ++ args.foldl (fun acc a => (acc ++ " ") ++ a) "" := by
  induction args with
  | nil => intro result; simp
  | cons a args ih =>
    intro result
    simp only [List.foldl_cons]
    rw [ih ((result ++ " ") ++ a), ih (("" ++ " ") ++ a)]
    simp [String.append_assoc]

theorem commandText_argvOf (name : String) (args : List String) :
    commandText (argcOf args) (argvOf name args)
      = some (args.foldl (fun acc a => (acc ++ " ") ++ a) launcher) := by
  have h := join_eq_joinEntries (args.map some) [none]
  rw [joinEntries_map_some, List.length_map] at h
  simp only [commandText, argcOf, argvOf, List.drop_succ_cons, List.drop_zero,
    add_sub_cancel_right, h]
  rw [foldl_acc args launcher]

theorem joinLoop_congr (argc : Int) (xs ys : List (Option String)) :
    ∀ (k i : Nat) (result : String), (argc - (i : Int)).toNat = k →
      (∀ j : Nat, i ≤ j → (j : Int) < argc → xs.get? j = ys.get? j) →
        joinLoop argc xs i result = joinLoop argc ys i result := by
  intro k
  induction k with
  | zero =>
    intro i result hk _
    rw [joinLoop_done argc xs i result (by omega), joinLoop_done argc ys i result (by omega)]
  | succ k ih =>
    intro i result hk hagree
    have hlt : (i : Int) < argc := by omega
    rw [joinLoop, if_pos hlt]
    conv_rhs => rw [joinLoop, if_pos hlt]
    rw [← hagree i (le_refl i) hlt]
    cases hx : xs.get? i with
    | none => rfl
    | some x =>
      cases x with
      | none => rfl
      | some s =>
        exact ih (i + 1) ((result ++ " ") ++ s) (by push_cast; omega)
          (fun j hj hjlt => hagree j (by omega) hjlt)

theorem foldl_data (args : List String) :
    ∀ result : String,
      (args.foldl (fun acc a => acc ++ " " ++ a) result).data
        = result.data ++ (args.map (fun a => ' ' :: a.data)).flatten := by
  induction args with
  | nil => intro result; simp
  | cons a args ih =>
    intro result
    simp only [List.foldl_cons, List.map_cons, List.flatten_cons]
    rw [ih]
    simp [String.data_append]

theorem commandText_eq_specCommand (name : String) (args : List String) :
    commandText (argcOf args) (argvOf name args) = some (specCommand args) :=
  commandText_argvOf name args

theorem join_argvOf (name : String) (args : List String) :
    join (argcOf args - 1) ((argvOf name args).drop 1)
      = some (args.foldl (fun acc a => (acc ++ " ") ++ a) "") := by
  have h := join_eq_joinEntries (args.map some) [none]
  rw [joinEntries_map_some, List.length_map] at h
  simpa [argcOf, argvOf] using h

/-! ## Claims -/

/-- C4: an argument with an embedded space is forwarded unescaped: for all
strings `s` and `t` the command built from the one argument `s ++ " " ++ t` is
the command built from the two arguments `s`, `t`; the arguments
`hello world` and `hello`, `world` both give
`java -jar AutoGrade.jar hello world`; the map from argument lists to command
texts is not injective. -/
theorem C4_embedded_space_ambiguous (name : String) :
    (∀ s t : String,
        commandText (argcOf [s ++ " " ++ t]) (argvOf name [s ++ " " ++ t])
          = commandText (argcOf [s, t]) (argvOf name [s, t]))
      ∧ commandText (argcOf ["hello world"]) (argvOf name ["hello world"])
          = some "java -jar AutoGrade.jar hello world"
      ∧ commandText (argcOf ["hello", "world"]) (argvOf name ["hello", "world"])
          = some "java -jar AutoGrade.jar hello world"
      ∧ ¬ Function.Injective (fun args => commandText (argcOf args) (argvOf name args)) := by
  have h1 : commandText (argcOf ["hello world"]) (argvOf name ["hello world"])
      = some "java -jar AutoGrade.jar hello world" := commandText_eq_specCommand name _
  have h2 : commandText (argcOf ["hello", "world"]) (argvOf name ["hello", "world"])
      = some "java -jar AutoGrade.jar hello world" := commandText_eq_specCommand name _
  refine ⟨?_, h1, h2, ?_⟩
  · intro s t
    rw [commandText_eq_specCommand, commandText_eq_specCommand]
    simp [specCommand, String.append_assoc]
  · intro hinj
    have heq : ["hello world"] = ["hello", "world"] := hinj (h1.trans h2.symm)
    exact absurd heq (by decide)

/-- C5: arguments appear in the constructed command in the order supplied, none
dropped, merged or repeated: when no argument contains a space, removing the
launcher text from the command, cutting the remainder at every space and
dropping the first piece gives back the argument list itself. -/
theorem C5_order_preserved (name : String) (args : List String)
    (h : ∀ a ∈ args, ' ' ∉ a.data) :
    (commandText (argcOf args) (argvOf name args)).map recoverArgs = some args := by
  have hinter : ∀ l : List String,
      (l.map (fun a => ' ' :: a.data)).flatten
        = [' '].intercalate ([] :: l.map String.data) := by
    intro l
    induction l with
    | nil => rfl
    | cons a l ih =>
      cases l with
      | nil => simp [List.intercalate]
      | cons b l =>
        simp only [List.map_cons, List.flatten_cons, List.intercalate,
          List.intersperse_cons_cons] at ih ⊢
        rw [ih]
        simp
  have hsplit : ([' '].intercalate ([] :: args.map String.data)).splitOn ' '
      = [] :: args.map String.data := by
    apply List.splitOn_intercalate
    · intro l hl
      rcases List.mem_cons.1 hl with rfl | hl
      · simp
      · obtain ⟨a, ha, rfl⟩ := List.mem_map.1 hl
        exact h a ha
    · exact List.cons_ne_nil _ _
  have hlen : launcher.length = launcher.data.length := rfl
  have hid : ∀ l : List String, l.map (String.mk ∘ String.data) = l := by
    intro l
    induction l with
    | nil => rfl
    | cons a l ih => simp [ih]
  rw [commandText_eq_specCommand]
  simp only [Option.map_some', recoverArgs, specCommand, foldl_data, hlen,
    List.drop_left, hinter, hsplit, List.drop_succ_cons, List.drop_zero, List.map_map]
  congr 1
  exact hid args

/-- C5 at the arguments `b`, `a`, the empty argument, `a`: a repeated and an empty argument. -/
theorem C5_order_preserved_witness :
    (∀ a ∈ ["b", "a", "", "a"], ' ' ∉ a.data)
      ∧ (commandText (argcOf ["b", "a", "", "a"]) (argvOf "autograde" ["b", "a", "", "a"])).map
          recoverArgs = some ["b", "a", "", "a"] :=
  ⟨by decide, C5_order_preserved "autograde" ["b", "a", "", "a"] (by decide)⟩

/-- C6: the constructed command does not depend on the invocation name: two
argument vectors that agree on `argv[1]` to `argv[argc - 1]` give the same
command text (and the same run of `main`), whatever `argv[0]` is in each. -/
theorem C6_invocation_name_excluded (facility : String → Int) (argc : Int)
    (argv argv' : List (Option String)) (w : World)
    (h : ∀ j : Nat, 1 ≤ j → (j : Int) < argc → argv.get? j = argv'.get? j) :
    commandText argc argv = commandText argc argv'
      ∧ main facility argc argv w = main facility argc argv' w := by
  have hj : join (argc - 1) (argv.drop 1) = join (argc - 1) (argv'.drop 1) := by
    apply joinLoop_congr (argc - 1) _ _ _ 0 "" rfl
    intro j _ hlt
    simp only [List.get?_eq_getElem?, List.getElem?_drop] at h ⊢
    exact h (1 + j) (by omega) (by push_cast; omega)
  have hc : commandText argc argv = commandText argc argv' := by
    simp only [commandText, hj]
  exact ⟨hc, by simp only [main, hc]⟩

/-- C6 at two argument vectors with the invocation names `autograde` and `./a.out`. -/
theorem C6_invocation_name_excluded_witness :
    (∀ j : Nat, 1 ≤ j → (j : Int) < 2 →
        (argvOf "autograde" ["hw1"]).get? j = (argvOf "./a.out" ["hw1"]).get? j)
      ∧ commandText 2 (argvOf "autograde" ["hw1"]) = commandText 2 (argvOf "./a.out" ["hw1"])
      ∧ main (fun _ => 0) 2 (argvOf "autograde" ["hw1"]) { calls := [] }
          = main (fun _ => 0) 2 (argvOf "./a.out" ["hw1"]) { calls := [] } :=
  have h : ∀ j : Nat, 1 ≤ j → (j : Int) < 2 →
      (argvOf "autograde" ["hw1"]).get? j = (argvOf "./a.out" ["hw1"]).get? j := by
    intro j h1 h2
    have hj : j = 1 := by omega
    subst hj
    rfl
  ⟨h, C6_invocation_name_excluded (fun _ => 0) 2 _ _ { calls := [] } h⟩

/-- C9: evaluated on the code, for every argument list: the temporary string
whose `c_str()` is taken on lines 52-53 is destroyed at the end of that full
expression, so at the call on line 54 the pointer `command` refers to a string
object whose lifetime has ended, and the call has no defined result. -/
theorem C9_command_dangles_at_call (facility : String → Int) (name : String)
    (args : List String) :
    ∃ s, mainBeforeCall (argcOf args) (argvOf name args) = some s
      ∧ (s.objs.get? s.command).map StrObj.alive = some false
      ∧ readCStr s.objs s.command = none
      ∧ mainWithLifetimes facility (argcOf args) (argvOf name args) = none := by
  have hb : mainBeforeCall (argcOf args) (argvOf name args)
      = some { objs := [{ text := launcher ++ args.foldl (fun acc a => (acc ++ " ") ++ a) "",
                          alive := false },
                        { text := args.foldl (fun acc a => (acc ++ " ") ++ a) "",
                          alive := false }],
               command := 0 } := by
    unfold mainBeforeCall
    rw [join_argvOf]
    simp [construct, appendObj, readCStr, destroy]
  refine ⟨_, hb, rfl, rfl, ?_⟩
  simp [mainWithLifetimes, hb, readCStr]

/-- C10: `join` reads the first `n` entries of its array and nothing else: for
`n <= 0` it returns the empty string on every array, the empty one included;
arrays that agree on their first `n` entries give the same result, so entries
after the first `n` do not count; an array with fewer than `n` entries is
overrun; the result for `xs ++ ys` with the full count is the result for `xs`
followed by the result for `ys`; and `main` started with `argc = 0` calls
`join` with count `-1` and builds the launcher text exactly. -/
theorem C10_join_reads_first_n :
    (∀ (n : Int) (argv : List (Option String)), n ≤ 0 → join n argv = some "")
      ∧ (∀ xs ys : List (Option String), join (xs.length : Int) (xs ++ ys) = join xs.length xs)
      ∧ (∀ (n : Int) (xs ys : List (Option String)),
          (∀ j : Nat, (j : Int) < n → xs.get? j = ys.get? j) → join n xs = join n ys)
      ∧ (∀ (n : Int) (xs : List (Option String)), (xs.length : Int) < n → join n xs = none)
      ∧ (∀ xs ys : List (Option String),
          join ((xs ++ ys).length : Int) (xs ++ ys)
            = (join xs.length xs).bind (fun a => (join ys.length ys).map (fun b => a ++ b)))
      ∧ (∀ argv : List (Option String),
          join (0 - 1) (argv.drop 1) = some "" ∧ commandText 0 argv = some launcher) := by
  refine ⟨fun n argv h => join_of_nonpos n argv h, ?_, ?_, ?_, ?_, ?_⟩
  · intro xs ys
    have h := join_eq_joinEntries xs []
    rw [List.append_nil] at h
    rw [join_eq_joinEntries, h]
  · intro n xs ys h
    exact joinLoop_congr n xs ys _ 0 "" rfl (fun j _ hlt => h j hlt)
  · intro n xs h
    exact joinLoop_short xs [] n "" (by simpa using h)
  · intro xs ys
    have hx := join_eq_joinEntries xs []
    have hy := join_eq_joinEntries ys []
    have hxy := join_eq_joinEntries (xs ++ ys) []
    rw [List.append_nil] at hx hy hxy
    rw [hx, hy, hxy, joinEntries_append]
    cases joinEntries xs "" with
    | none => rfl
    | some a => simp only [Option.some_bind]; rw [joinEntries_acc]
  · intro argv
    have hj : join (0 - 1) (argv.drop 1) = some "" := join_of_nonpos _ _ (by decide)
    refine ⟨hj, ?_⟩
    simp only [commandText, hj]
    rfl

end Autograde
